import Mathlib

/-!
Verification of the RoboSync directory synchronizer.

Paths are modelled as lists of components (`List String`), byte strings as
`List Nat`, and times as `Nat` ticks.  Each definition below is a direct
translation of the correspondingly named Rust item; deviations forced by the
model (e.g. the IEEE-754 arithmetic used by `should_use_delta`) are explained
in the doc comments.
-/

deriving instance DecidableEq for Except

namespace RoboSync

/-- Entry metadata produced by a scanner walk; mirrors `FileInfo` in
`file_list.rs` (`path`, `size`, `modified`, `is_directory`, `is_symlink`,
`symlink_target`, `checksum`). -/
structure FileInfo where
  path : List String
  size : Nat
  modified : Nat
  isDirectory : Bool
  isSymlink : Bool
  symlinkTarget : Option (List String)
  checksum : Option (List Nat)
deriving DecidableEq, Repr

/-- Plan element; mirrors the `FileOperation` enum of `file_list.rs`. -/
inductive FileOperation where
  | create (path : List String)
  | update (path : List String) (useDelta : Bool)
  | delete (path : List String)
  | createDirectory (path : List String)
  | createSymlink (path : List String) (target : List String)
  | updateSymlink (path : List String) (target : List String)
deriving DecidableEq, Repr

/-- Path carried by an operation. -/
def FileOperation.opPath : FileOperation → List String
  | .create p => p
  | .update p _ => p
  | .delete p => p
  | .createDirectory p => p
  | .createSymlink p _ => p
  | .updateSymlink p _ => p

/-- True exactly on `Delete` operations. -/
def FileOperation.isDelete : FileOperation → Bool
  | .delete _ => true
  | _ => false

/-- True exactly on `CreateDirectory` operations. -/
def FileOperation.isCreateDir : FileOperation → Bool
  | .createDirectory _ => true
  | _ => false

/-- Options consumed by the differ; the fields of `SyncOptions` (options.rs)
that `compare_file_lists_with_roots_and_progress` and `needs_update` read. -/
structure SyncOptions where
  checksum : Bool
  purge : Bool
  mirror : Bool
deriving DecidableEq, Repr

/-- Result of `Path::strip_prefix` on component lists: the suffix of `path`
after `root` when `root` is a leading run of components, otherwise `none`. -/
def stripRoot (root path : List String) : Option (List String) :=
  if root.isPrefixOf path then some (path.drop root.length) else none

/-- Update policy of `needs_update` (file_list.rs): with checksum mode on and
both checksums present, compare checksums; otherwise compare mtime and size. -/
def needsUpdate (source target : FileInfo) (options : SyncOptions) : Bool :=
  match options.checksum, source.checksum, target.checksum with
  | true, some sc, some tc => decide (sc ≠ tc)
  | _, _, _ => decide (source.modified > target.modified) || decide (source.size ≠ target.size)

/-- Floor of the base-2 logarithm, by structural recursion on a fuel bound so
that the kernel can evaluate it.  For `n < 2 ^ fuel` it computes `Nat.log2 n`. -/
def log2Fuel : Nat → Nat → Nat
  | 0, _ => 0
  | fuel + 1, n => if n ≤ 1 then 0 else log2Fuel fuel (n / 2) + 1

/-- Floor of the base-2 logarithm for numbers below `2 ^ 400`, covering every
quantity arising from `u64` inputs in the `f64` model below. -/
def flog2 (n : Nat) : Nat := log2Fuel 400 n

/-- Rounding of a natural number to the nearest IEEE-754 double
(round-to-nearest, ties-to-even), as performed by Rust's `u64 as f64` cast.
For `n < 2 ^ 53` the value is exact; above, `n` is rounded to the nearest
multiple of `2 ^ (log2 n - 52)`.  The result of rounding a `u64` is always a
natural number, so the model returns `Nat`. -/
def natToF64 (n : Nat) : Nat :=
  let step := 2 ^ (flog2 n - 52)
  let q := n / step
  let r := n % step
  if r * 2 < step then q * step
  else if step < r * 2 then (q + 1) * step
  else if q % 2 = 0 then q * step else (q + 1) * step

/-- Rounding of the fraction `num / den` to the nearest integer with
ties-to-even (`den` positive). -/
def roundNEInt (num den : Nat) : Nat :=
  let q := num / den
  let r := num % den
  if r * 2 < den then q
  else if den < r * 2 then q + 1
  else if q % 2 = 0 then q else q + 1

/-- Nonnegative dyadic rational `m / 2 ^ k`, the exact value of a nonnegative
finite IEEE-754 double. -/
structure Dyadic where
  m : Nat
  k : Nat
deriving DecidableEq, Repr

/-- Rational denoted by a dyadic. -/
def Dyadic.toRat (d : Dyadic) : ℚ := (d.m : ℚ) / 2 ^ d.k

/-- Exact comparison of a dyadic with one half, as the IEEE comparison
`x < 0.5` performs on the represented values. -/
def Dyadic.ltHalf (d : Dyadic) : Bool := decide (d.m * 2 < 2 ^ d.k)

/-- IEEE-754 double division `a / b` of two exactly representable naturals,
with round-to-nearest-even, returned as the exact dyadic value it denotes.
The quotient exponent `e` satisfies `2 ^ e ≤ a / b < 2 ^ (e + 1)`; the scaled
mantissa is rounded onto the 53-bit grid.  Written with `e = E - s` where
`E = flog2 (a * 2 ^ s / b)` and `s = flog2 b + 201`, so that all quantities
are naturals.  (For `a = 0` the result is `0`; `b = 0` is unreachable in
use.) -/
def divF64 (a b : Nat) : Dyadic :=
  if a = 0 ∨ b = 0 then ⟨0, 0⟩
  else
    let s := flog2 b + 201
    let E := flog2 (a * 2 ^ s / b)
    if s + 52 ≤ E then
      ⟨roundNEInt a (b * 2 ^ (E - s - 52)) * 2 ^ (E - s - 52), 0⟩
    else
      ⟨roundNEInt (a * 2 ^ (s + 52 - E)) b, s + 52 - E⟩

/-- Delta eligibility test of `should_use_delta` (file_list.rs): both sizes at
least 1024 and `abs_diff / max`, computed in `f64`, strictly below `0.5`. -/
def shouldUseDelta (source target : FileInfo) : Bool :=
  if source.size < 1024 || target.size < 1024 then false
  else
    let sizeDiff := max source.size target.size - min source.size target.size
    (divF64 (natToF64 sizeDiff) (natToF64 (max source.size target.size))).ltHalf

/-- Operations emitted for one source entry by the per-entry branch chain of
`compare_file_lists_with_roots_and_progress` (file_list.rs), given the
destination entry found at the same relative path (if any).  Note that the
type-mismatch branches emit `Delete` with the source entry's absolute path. -/
def diffEntry (sourceFile : FileInfo) (targetOpt : Option FileInfo)
    (options : SyncOptions) : List FileOperation :=
  match targetOpt with
  | some targetFile =>
    if sourceFile.isSymlink && targetFile.isSymlink then
      if sourceFile.symlinkTarget ≠ targetFile.symlinkTarget then
        match sourceFile.symlinkTarget with
        | some target => [.updateSymlink sourceFile.path target]
        | none => []
      else []
    else if sourceFile.isSymlink && !targetFile.isSymlink then
      .delete sourceFile.path ::
        (match sourceFile.symlinkTarget with
         | some target => [.createSymlink sourceFile.path target]
         | none => [])
    else if !sourceFile.isSymlink && targetFile.isSymlink then
      .delete sourceFile.path ::
        (if sourceFile.isDirectory then [.createDirectory sourceFile.path]
         else [.create sourceFile.path])
    else if sourceFile.isDirectory && targetFile.isDirectory then []
    else if sourceFile.isDirectory && !targetFile.isDirectory then
      [.delete sourceFile.path, .createDirectory sourceFile.path]
    else if !sourceFile.isDirectory && targetFile.isDirectory then
      [.delete sourceFile.path, .create sourceFile.path]
    else if !sourceFile.isDirectory && !targetFile.isDirectory then
      if needsUpdate sourceFile targetFile options then
        [.update sourceFile.path (shouldUseDelta sourceFile targetFile)]
      else []
    else []
  | none =>
    if sourceFile.isSymlink then
      match sourceFile.symlinkTarget with
      | some target => [.createSymlink sourceFile.path target]
      | none => []
    else if sourceFile.isDirectory then [.createDirectory sourceFile.path]
    else [.create sourceFile.path]

/-- Destination entry found for a relative path in the target map built by
`compare_file_lists_with_roots_and_progress`.  (The Rust code collects into a
`HashMap`; filesystem walks yield distinct paths, hence distinct keys, so the
first hit models the lookup.) -/
def targetLookup (target : List FileInfo) (destRoot rel : List String) : Option FileInfo :=
  (target.filterMap (fun f =>
      (stripRoot destRoot f.path).map (fun r => (r, f)))).find?
    (fun p => p.1 = rel) |>.map (·.2)

/-- Differ of `compare_file_lists_with_roots_and_progress` (file_list.rs):
per-source operations in source order, followed (when neither `purge` nor
`mirror` is set) by `Delete` of each destination entry whose relative path was
not paired with a source entry. -/
def compareFileLists (source target : List FileInfo)
    (sourceRoot destRoot : List String) (options : SyncOptions) : List FileOperation :=
  let pairs := source.filterMap (fun f =>
    (stripRoot sourceRoot f.path).map (fun rel => (f, rel)))
  let sourceOps := (pairs.map (fun p =>
    diffEntry p.1 (targetLookup target destRoot p.2) options)).flatten
  let processed := pairs.filterMap (fun p =>
    if (targetLookup target destRoot p.2).isSome then some p.2 else none)
  let targetOps := if !options.purge && !options.mirror then
      target.filterMap (fun tf =>
        match stripRoot destRoot tf.path with
        | none => none
        | some rel => if rel ∈ processed then none else some (.delete tf.path))
    else []
  sourceOps ++ targetOps

/-- Work item of the purge scan: the operation together with the directory
flag and depth recorded by `find_purge_operations_with_progress`. -/
structure PurgeItem where
  op : FileOperation
  isDir : Bool
  depth : Nat
deriving DecidableEq, Repr

/-- Marked entries of the purge scan of
`find_purge_operations_with_progress` (parallel_sync.rs): each destination
entry whose relative path is absent from the source set yields a `Delete`
operation together with its directory flag and recorded depth. -/
def purgeItems (sourceFiles destFiles : List FileInfo)
    (sourceRoot destRoot : List String) : List PurgeItem :=
  let sourceRels := sourceFiles.filterMap (fun f => stripRoot sourceRoot f.path)
  destFiles.filterMap (fun df =>
    match stripRoot destRoot df.path with
    | none => none
    | some rel =>
      if rel ∈ sourceRels then none
      else some { op := .delete df.path, isDir := df.isDirectory,
                  depth := if df.isDirectory then df.path.length else 0 : PurgeItem })

/-- Purge scan of `find_purge_operations_with_progress` (parallel_sync.rs):
destination entries whose relative path is absent from the source set become
`Delete` operations; files (in scan order) precede directories, and
directories are stably sorted by component count, deepest first. -/
def findPurgeOperations (sourceFiles destFiles : List FileInfo)
    (sourceRoot destRoot : List String) : List FileOperation :=
  let items := purgeItems sourceFiles destFiles sourceRoot destRoot
  let fileItems := items.filter (fun m => !m.isDir)
  let dirItems := items.filter (fun m => m.isDir)
  fileItems.map (·.op) ++
    (dirItems.mergeSort (fun a b => decide (b.depth ≤ a.depth))).map (·.op)

/-- Phase split performed by `ParallelSyncer::sync_directories` before
execution: `CreateDirectory` operations first, then the remaining non-delete
operations, then the `Delete` operations. -/
def executorPhases (ops : List FileOperation) :
    List FileOperation × List FileOperation × List FileOperation :=
  let p1 := ops.partition (fun op => op.isCreateDir)
  let p2 := p1.2.partition (fun op => !op.isDelete)
  (p1.1, p2.1, p2.2)

/-- Root filtering in `ParallelSyncer::sync_directories`: the scanned
destination list retains every entry whose path differs from the destination
root. -/
def retainNonRoot (destFiles : List FileInfo) (destination : List String) : List FileInfo :=
  destFiles.filter (fun f => f.path ≠ destination)

/-- Retry configuration of `RetryConfig` (retry.rs). -/
structure RetryConfig where
  maxRetries : Nat
  waitSeconds : Nat
deriving DecidableEq, Repr

/-- Observable outcome of the retry wrapper: the returned value (errors carry
the retry count written into the exhaustion message), the number of times the
thunk was invoked, and the number of sleeps performed. -/
structure RetryOutcome (E A : Type) where
  result : Except (E × Nat) A
  calls : Nat
  sleeps : Nat

/-- Loop body of `with_retry` (retry.rs).  The thunk is modelled as a function
from the attempt index to that invocation's outcome.  `left` counts the
remaining retries, so the current attempt index is `maxRetries - left` and the
code's sleep condition `attempt < max_retries` is `0 < left`; the wrapper
enters at `left = maxRetries`, matching the `for attempt in 0..=max_retries`
loop.  On exhaustion the last error is annotated with `maxRetries`, as in the
message `failed after N retries`. -/
def retryGo (f : Nat → Except E A) (maxRetries : Nat) : Nat → RetryOutcome E A
  | 0 =>
    match f maxRetries with
    | .ok v => ⟨.ok v, 1, 0⟩
    | .error e => ⟨.error (e, maxRetries), 1, 0⟩
  | left' + 1 =>
    match f (maxRetries - (left' + 1)) with
    | .ok v => ⟨.ok v, 1, 0⟩
    | .error _ =>
      let rest := retryGo f maxRetries left'
      ⟨rest.result, rest.calls + 1, rest.sleeps + 1⟩

/-- Retry wrapper `with_retry` (retry.rs). -/
def withRetry (f : Nat → Except E A) (config : RetryConfig) : RetryOutcome E A :=
  retryGo f config.maxRetries config.maxRetries

/-- Codec algorithms of `CompressionType` (compression.rs). -/
inductive CompressionType where
  | nocomp
  | zstd
  | lz4
deriving DecidableEq, Repr

/-- Decompression dispatch of `decompress_data` (compression.rs).  The
third-party decompressors are parameters: the zstd one receives the capacity
argument the code passes (16 MiB), the lz4 one receives no bound, and the
`None` branch returns the input unchanged. -/
def decompressData (zstdDecompress : List Nat → Nat → Except String (List Nat))
    (lz4Decompress : List Nat → Except String (List Nat))
    (data : List Nat) (algorithm : CompressionType) : Except String (List Nat) :=
  match algorithm with
  | .nocomp => .ok data
  | .zstd => zstdDecompress data (16 * 1024 * 1024)
  | .lz4 => lz4Decompress data

/-- Metadata subset selection of `CopyFlags` (metadata.rs). -/
structure CopyFlags where
  data : Bool
  attributes : Bool
  timestamps : Bool
  security : Bool
  owner : Bool
  auditing : Bool
deriving DecidableEq, Repr

/-- Flag parsing of `CopyFlags::from_string` (metadata.rs): uppercase the
string and test membership of each letter.  (Flag strings are ASCII, where
`Char.toUpper` agrees with Rust's `to_uppercase`.) -/
def CopyFlags.fromString (flags : List Char) : CopyFlags :=
  let up := flags.map Char.toUpper
  { data := decide ('D' ∈ up), attributes := decide ('A' ∈ up),
    timestamps := decide ('T' ∈ up), security := decide ('S' ∈ up),
    owner := decide ('O' ∈ up), auditing := decide ('U' ∈ up) }

/-- Metadata state of a destination file: the pieces
`copy_file_with_metadata_internal` can change after the data copy. -/
structure Metadata where
  mtime : Nat
  perms : Nat
  ownerId : Nat
deriving DecidableEq, Repr

/-- Metadata application of `copy_file_with_metadata_internal` (metadata.rs):
`T` copies the mtime, `S` the permission bits, `O` the ownership; `A` calls
`copy_attributes`, which is a no-op in the source, and `U` only pushes a
warning. -/
def applyMetadataFlags (flags : CopyFlags) (source dest : Metadata) : Metadata :=
  { mtime := if flags.timestamps then source.mtime else dest.mtime,
    perms := if flags.security then source.perms else dest.perms,
    ownerId := if flags.owner then source.ownerId else dest.ownerId }

/-- Warning string pushed for the `U` flag in metadata.rs and
parallel_sync.rs. -/
def auditWarning : String :=
  "Warning: Auditing info copying (U flag) not supported on this platform"

/-- Warnings pushed by one file copy in
`copy_file_with_metadata_internal`. -/
def copyFileWarnings (flags : CopyFlags) : List String :=
  if flags.auditing then [auditWarning] else []

/-- Per-operation warning contribution of the directory flow of
`ParallelSyncer::sync_directories` (parallel_sync.rs).  `CreateDirectory` and
`Delete` operations are dispatched to `execute_operation`, whose branches for
them push no warnings; `Create` and `Update` operations are copied with bare
`fs::copy` — in the small-file batch or in `execute_operation_parallel` —
and symlink operations are recreated with `fs::symlink`; none of these parse
the copy flags or touch the shared `SyncStats.warnings` sink, so the `flags`
argument goes unread.  (The flag-aware `copy_file_with_retry_with_warnings`
sits only in the `Create`/`Update` branches of `execute_operation`, which the
directory flow never dispatches there, and in `sync_file_pair`, which is live
only for single-file runs.) -/
def dirExecWarnings (flags : CopyFlags) : FileOperation → List String
  | .createDirectory _ => []
  | .delete _ => []
  | .create _ => []
  | .update _ _ => []
  | .createSymlink _ _ => []
  | .updateSymlink _ _ => []

/-- Warning vector accumulated over a directory run executing the plan `ops`
through one shared `SyncStats.warnings` sink, handed to
`SyncLogger::log_summary` at the end of `ParallelSyncer::sync_directories`. -/
def dirRunWarnings (flags : CopyFlags) (ops : List FileOperation) : List String :=
  (ops.map (dirExecWarnings flags)).flatten

/-- Warning display of `SyncLogger::log_summary` (logging.rs): the collected
warnings are deduplicated before being reported.  (The code inserts into a
`HashSet`; the model keeps first occurrences.) -/
def summaryWarnings (warnings : List String) : List String := warnings.dedup

/-- Number of bytes of a character's UTF-8 encoding. -/
def utf8Width (c : Char) : Nat :=
  if c.toNat < 0x80 then 1
  else if c.toNat < 0x800 then 2
  else if c.toNat < 0x10000 then 3
  else 4

/-- Byte length of a character sequence under UTF-8, as `String::len` counts
it in Rust. -/
def byteLen (s : List Char) : Nat := (s.map utf8Width).sum

/-- Byte-indexed suffix `&s[i..]` of a Rust string: walking whole characters;
landing strictly inside a character's encoding (or past the end) is the
panic of slicing outside a char boundary, modelled as `none`. -/
def byteSlice : List Char → Nat → Option (List Char)
  | s, 0 => some s
  | [], _ + 1 => none
  | c :: cs, i + 1 =>
    if i + 1 < utf8Width c then none else byteSlice cs (i + 1 - utf8Width c)

/-- Recursion of `matches_pattern` (file_list.rs) over `(text, pattern)`,
with structural fuel: every nested call consumes at least one pattern
character, so the recursion depth is bounded by the pattern length and the
zero-fuel case is unreachable from `matchesPattern` below.  `Except Unit Bool`
separates a normal boolean return from the panic that the `*` branch's byte
slicing can raise.  The `for i in 0..=remaining_text.len()` loop of the `*`
branch is a fold over the byte indices that short-circuits on the first match
or panic, exactly as the loop returns early. -/
def mpFuel : Nat → List Char → List Char → Except Unit Bool
  | 0, _, _ => .ok false
  | fuel + 1, text, pattern =>
    match pattern, text with
    | [], [] => .ok true
    | [], _ :: _ => .ok false
    | p :: ps, t =>
      if p = '*' then
        if ps.isEmpty then .ok true
        else
          (List.range (byteLen t + 1)).foldl
            (fun acc i =>
              match acc with
              | .error e => .error e
              | .ok true => .ok true
              | .ok false =>
                match byteSlice t i with
                | none => .error ()
                | some suffix => mpFuel fuel suffix ps)
            (.ok false)
      else
        match t with
        | [] => .ok false
        | c :: ts =>
          if p = '?' then mpFuel fuel ts ps
          else if p = c then mpFuel fuel ts ps
          else .ok false

/-- Glob matcher `matches_pattern` (file_list.rs): argument order
`(text, pattern)` as in the source. -/
def matchesPattern (text pattern : List Char) : Except Unit Bool :=
  mpFuel (pattern.length + 1) text pattern

/-- Adler-style weak checksum state over a block, from the spec's
"additive+multiplicative pair over bytes" (§4.5). -/
def adlerPair (block : List Nat) : Nat × Nat :=
  block.foldl (fun p y => ((p.1 + y) % 65521, (p.2 + p.1 + y) % 65521)) (1, 0)

/-- Modelled from the spec: the weak rolling checksum of the Delta matcher
(`algorithm.rs`, which is not under src/).  The pair components are combined
into one word; only the fact that it is a function of the block content
matters to the plan. -/
def weakSum (block : List Nat) : Nat :=
  (adlerPair block).1 + 65536 * (adlerPair block).2

/-- Target block summary of the spec's `BlockChecksum` (§3): offset, weak
checksum, and the strong identification of the block.  The strong 128/256-bit
hash is collision-resistant, so the model identifies it with the block
content itself. -/
structure BlockChecksum where
  offset : Nat
  weak : Nat
  strong : List Nat
deriving DecidableEq, Repr

/-- Fuel-driven splitting of the target data into non-overlapping blocks of
size `max B 1` (the fuel, instantiated with the data length, only serves
structural recursion; each step consumes at least one element). -/
def genChecksFuel (B : Nat) : Nat → List Nat → Nat → List BlockChecksum
  | 0, _, _ => []
  | _ + 1, [], _ => []
  | fuel + 1, d :: ds, offset =>
    let B' := max B 1
    let block := (d :: ds).take B'
    ⟨offset, weakSum block, block⟩ :: genChecksFuel B fuel ((d :: ds).drop B') (offset + B')

/-- Modelled from the spec: `DeltaAlgorithm::generate_checksums`
(`algorithm.rs`, not under src/), per §4.5: split D into non-overlapping
blocks of size B (last may be shorter) and record offset, weak and strong
checksum of each. -/
def generateChecksums (data : List Nat) (B : Nat) : List BlockChecksum :=
  genChecksFuel B data.length data 0

/-- Delta instruction of the `Match` enum used by `apply_delta` (sync.rs,
parallel_sync.rs): a literal byte run or a reference to a target block. -/
inductive Match where
  | literal (offset : Nat) (data : List Nat) (isCompressed : Bool)
  | block (sourceOffset targetOffset length : Nat)
deriving DecidableEq, Repr

/-- Modelled from the spec: literal emission with optional compression
(§4.5 together with `compress_literal_data` in compression.rs): when the
codec is enabled, payloads of at least 64 bytes are compressed and the
compressed form is kept only if strictly smaller, recorded in the
`compressed` flag. -/
def mkLiteral (codec : Option (List Nat → List Nat)) (offset : Nat)
    (data : List Nat) : Match :=
  match codec with
  | none => .literal offset data false
  | some compress =>
    if 64 ≤ data.length ∧ (compress data).length < data.length then
      .literal offset (compress data) true
    else .literal offset data false

/-- Pending literal flush `S[lit_start..i]` of the source scan (§4.5); empty
runs produce no instruction. -/
def emitLit (codec : Option (List Nat → List Nat)) (litStart iEnd : Nat)
    (S : List Nat) : List Match :=
  if litStart < iEnd then [mkLiteral codec litStart ((S.drop litStart).take (iEnd - litStart))]
  else []

/-- Candidate confirmation at the current window: first target block whose
weak checksum and strong identification both match (§4.5). -/
def findCandidate (checks : List BlockChecksum) (window : List Nat) : Option BlockChecksum :=
  checks.find? (fun c => decide (c.weak = weakSum window ∧ c.strong = window))

/-- Modelled from the spec: the source scan of `DeltaAlgorithm::find_matches`
(`algorithm.rs`, not under src/), per §4.5.  At position `i`: when a window of
`B` bytes matches a target block, flush the pending literal, emit the block
reference, and advance by `B`; otherwise advance by one byte.  At end of
input, flush the trailing literal.  The block size is normalized to
`max B 1` (the spec default is 1024) and the fuel (instantiated with
`S.length + 1`) only serves structural recursion. -/
def findFromFuel (checks : List BlockChecksum) (codec : Option (List Nat → List Nat))
    (B : Nat) (S : List Nat) : Nat → Nat → Nat → List Match
  | 0, _, litStart => emitLit codec litStart S.length S
  | fuel + 1, i, litStart =>
    let B' := max B 1
    if i + B' ≤ S.length then
      match findCandidate checks ((S.drop i).take B') with
      | some c =>
        emitLit codec litStart i S ++ .block i c.offset B' :: findFromFuel checks codec B S fuel (i + B') (i + B')
      | none => findFromFuel checks codec B S fuel (i + 1) litStart
    else emitLit codec litStart S.length S

/-- Modelled from the spec: the full delta matcher `delta(D, S, B)` — target
checksums from D, then the source scan over S. -/
def findMatches (codec : Option (List Nat → List Nat)) (S : List Nat)
    (checks : List BlockChecksum) (B : Nat) : List Match :=
  findFromFuel checks codec B S (S.length + 1) 0 0

/-- Instruction application of `ParallelSyncer::apply_delta`
(parallel_sync.rs): literals are appended (after decompression when flagged),
block references copy `length` bytes of the destination starting at
`target_offset`, and a reference extending beyond the destination is an
error.  The third-party decompressor is a parameter. -/
def applyDelta (decompress : List Nat → Except String (List Nat))
    (destData : List Nat) : List Match → Except String (List Nat)
  | [] => .ok []
  | .literal _ data isCompressed :: rest =>
    match (if isCompressed then decompress data else .ok data) with
    | .error e => .error e
    | .ok piece =>
      match applyDelta decompress destData rest with
      | .error e => .error e
      | .ok tail => .ok (piece ++ tail)
  | .block _ targetOffset len :: rest =>
    if targetOffset + len ≤ destData.length then
      match applyDelta decompress destData rest with
      | .error e => .error e
      | .ok tail => .ok ((destData.drop targetOffset).take len ++ tail)
    else .error "Block match extends beyond destination data"

/-! Helper lemmas shared between the claim theorems. -/

/-- Every operation emitted by the per-entry branch chain carries the source
entry's path. -/
theorem diffEntry_opPath (f : FileInfo) (topt : Option FileInfo) (opts : SyncOptions) :
    ∀ op ∈ diffEntry f topt opts, op.opPath = f.path := by
  intro op hop
  unfold diffEntry at hop
  repeat' split at hop
  all_goals simp_all [FileOperation.opPath]
  all_goals (rcases hop with rfl | rfl <;> rfl)

/-- Every marked purge entry comes from a scanned destination entry, with the
recorded operation, directory flag and depth. -/
theorem mem_purgeItems (sourceFiles destFiles : List FileInfo)
    (sourceRoot destRoot : List String) :
    ∀ item ∈ purgeItems sourceFiles destFiles sourceRoot destRoot,
      ∃ f ∈ destFiles,
        item = (⟨.delete f.path, f.isDirectory,
          if f.isDirectory then f.path.length else 0⟩ : PurgeItem) := by
  intro item hitem
  rcases List.mem_filterMap.1 hitem with ⟨f, hf, hsome⟩
  refine ⟨f, hf, ?_⟩
  rcases hrel : stripRoot destRoot f.path with _ | rel <;> rw [hrel] at hsome
  · simp at hsome
  · by_cases hin : rel ∈ sourceFiles.filterMap (fun f => stripRoot sourceRoot f.path) <;>
      simp [hin] at hsome
    simp [← hsome]

/-- Every operation produced by the purge scan is the deletion of a scanned
destination entry. -/
theorem mem_findPurgeOperations (sourceFiles destFiles : List FileInfo)
    (sourceRoot destRoot : List String) :
    ∀ op ∈ findPurgeOperations sourceFiles destFiles sourceRoot destRoot,
      ∃ f ∈ destFiles, op = .delete f.path := by
  intro op hop
  unfold findPurgeOperations at hop
  rcases List.mem_append.1 hop with h | h
  · rcases List.mem_map.1 h with ⟨item, hitem, rfl⟩
    rcases List.mem_filter.1 hitem with ⟨hmem, -⟩
    rcases mem_purgeItems _ _ _ _ _ hmem with ⟨f, hf, rfl⟩
    exact ⟨f, hf, rfl⟩
  · rcases List.mem_map.1 h with ⟨item, hitem, rfl⟩
    have hperm := List.mergeSort_perm
      ((purgeItems sourceFiles destFiles sourceRoot destRoot).filter (fun m => m.isDir))
      (fun a b => decide (b.depth ≤ a.depth))
    have hitem' := hperm.mem_iff.1 hitem
    rcases List.mem_filter.1 hitem' with ⟨hmem, -⟩
    rcases mem_purgeItems _ _ _ _ _ hmem with ⟨f, hf, rfl⟩
    exact ⟨f, hf, rfl⟩

/-- Invocation-count bound of the retry loop. -/
theorem retryGo_calls_le (f : Nat → Except E A) (m : Nat) :
    ∀ left, (retryGo f m left).calls ≤ left + 1 := by
  intro left
  induction left with
  | zero => rcases h : f m with e | v <;> simp [retryGo, h]
  | succ l ih =>
    rcases h : f (m - (l + 1)) with e | v <;> simp [retryGo, h]
    omega

/-- Sleeps happen exactly between consecutive thunk invocations. -/
theorem retryGo_sleeps_calls (f : Nat → Except E A) (m : Nat) :
    ∀ left, (retryGo f m left).sleeps + 1 = (retryGo f m left).calls := by
  intro left
  induction left with
  | zero => rcases h : f m with e | v <;> simp [retryGo, h]
  | succ l ih =>
    rcases h : f (m - (l + 1)) with e | v <;> simp [retryGo, h]
    omega

/-- First-success behaviour of the retry loop, relative to its first attempt
index `m - left`. -/
theorem retryGo_success (f : Nat → Except E A) (m : Nat) :
    ∀ left, left ≤ m → ∀ i v, m - left ≤ i → i ≤ m →
      (∀ j, m - left ≤ j → j < i → ∃ e, f j = .error e) → f i = .ok v →
      (retryGo f m left).result = .ok v
        ∧ (retryGo f m left).calls = i - (m - left) + 1 := by
  intro left
  induction left with
  | zero =>
    intro _ i v h1 h2 hfail hok
    have heq : i = m := le_antisymm h2 h1
    subst heq
    simp [retryGo, hok]
  | succ l ih =>
    intro hlm i v h1 h2 hfail hok
    rcases h : f (m - (l + 1)) with e | w
    · have hne : i ≠ m - (l + 1) := by
        intro hEq
        rw [hEq, h] at hok
        exact Except.noConfusion hok
      have hgt : m - l ≤ i := by omega
      have hrec := ih (by omega) i v hgt h2 (fun j hj1 hj2 => hfail j (by omega) hj2) hok
      refine ⟨?_, ?_⟩ <;> simp [retryGo, h]
      · exact hrec.1
      · rw [hrec.2]
        omega
    · by_cases hEq : i = m - (l + 1)
      · subst hEq
        rw [h] at hok
        cases hok
        simp [retryGo, h]
      · exfalso
        rcases hfail (m - (l + 1)) (le_refl _) (by omega) with ⟨e, he⟩
        rw [h] at he
        exact Except.noConfusion he

/-- Exhaustion behaviour of the retry loop: when every attempt fails, the
final attempt's error is returned annotated with the retry count. -/
theorem retryGo_exhaust (f : Nat → Except E A) (m : Nat) :
    ∀ left, left ≤ m → (∀ j, m - left ≤ j → j ≤ m → ∃ e, f j = .error e) →
      ∃ e, f m = .error e ∧ (retryGo f m left).result = .error (e, m)
        ∧ (retryGo f m left).calls = left + 1 := by
  intro left
  induction left with
  | zero =>
    intro _ hfail
    rcases hfail m (by omega) (le_refl _) with ⟨e, he⟩
    exact ⟨e, he, by simp [retryGo, he]⟩
  | succ l ih =>
    intro hlm hfail
    rcases hfail (m - (l + 1)) (le_refl _) (by omega) with ⟨e, he⟩
    rcases ih (by omega) (fun j hj1 hj2 => hfail j (by omega) hj2) with ⟨e', he', h1, h2⟩
    refine ⟨e', he', ?_, ?_⟩ <;> simp [retryGo, he]
    · exact h1
    · omega

/-- No branch of the directory flow pushes a warning, so the accumulated
warning vector of a directory run is empty whatever the plan and flags. -/
theorem dirRunWarnings_eq_nil (flags : CopyFlags) (ops : List FileOperation) :
    dirRunWarnings flags ops = [] := by
  induction ops with
  | nil => rfl
  | cons op rest ih =>
    rcases op <;> simpa [dirRunWarnings, dirExecWarnings] using ih

/-- Every operation of the differ's plan either carries the path of a source
entry (the per-entry operations) or deletes the path of a scanned destination
entry (the unmatched-target deletions). -/
theorem mem_compareFileLists (source target : List FileInfo)
    (sourceRoot destRoot : List String) (options : SyncOptions) :
    ∀ op ∈ compareFileLists source target sourceRoot destRoot options,
      (∃ f ∈ source, op.opPath = f.path) ∨ (∃ f ∈ target, op = .delete f.path) := by
  intro op hop
  unfold compareFileLists at hop
  rcases List.mem_append.1 hop with h | h
  · left
    rcases List.mem_flatten.1 h with ⟨l, hl, hopl⟩
    rcases List.mem_map.1 hl with ⟨pair, hpair, rfl⟩
    rcases List.mem_filterMap.1 hpair with ⟨f, hf, hsome⟩
    rcases hrel : stripRoot sourceRoot f.path with _ | rel <;> rw [hrel] at hsome
    · simp at hsome
    · simp at hsome
      refine ⟨f, hf, ?_⟩
      rw [diffEntry_opPath pair.1 _ options op hopl, ← hsome]
  · right
    by_cases hc : (!options.purge && !options.mirror) = true <;> simp only [hc] at h
    · rw [if_pos trivial] at h
      rcases List.mem_filterMap.1 h with ⟨tf, htf, hsome⟩
      rcases hrel : stripRoot destRoot tf.path with _ | rel <;> rw [hrel] at hsome
      · simp at hsome
      · by_cases hin : rel ∈ (source.filterMap (fun f =>
            (stripRoot sourceRoot f.path).map (fun rel => (f, rel)))).filterMap (fun p =>
              if (targetLookup target destRoot p.2).isSome then some p.2 else none) <;>
          simp [hin] at hsome
        exact ⟨tf, htf, hsome.symm⟩
    · simp at h

/-- Characterization of `needs_update` in the spec's terms. -/
theorem needsUpdate_iff (S T : FileInfo) (opts : SyncOptions) :
    needsUpdate S T opts = true ↔
      (if opts.checksum ∧ S.checksum.isSome ∧ T.checksum.isSome
       then S.checksum ≠ T.checksum
       else T.modified < S.modified ∨ S.size ≠ T.size) := by
  unfold needsUpdate
  rcases hc : opts.checksum <;>
    rcases hsc : S.checksum with _ | sc <;>
    rcases htc : T.checksum with _ | tc <;>
    simp [hc, hsc, htc]

theorem log2Fuel_spec : ∀ (fuel n : Nat), n < 2 ^ fuel →
    (1 ≤ n → 2 ^ log2Fuel fuel n ≤ n) ∧ n < 2 ^ (log2Fuel fuel n + 1) := by
  intro fuel
  induction fuel with
  | zero =>
    intro n hn
    have hn0 : n = 0 := by simpa using hn
    subst hn0
    simp [log2Fuel]
  | succ fuel ih =>
    intro n hn
    by_cases h1 : n ≤ 1
    · constructor
      · intro hge
        have : n = 1 := by omega
        simp [log2Fuel, this]
      · simp [log2Fuel, h1]
        omega
    · have h2n : 2 ≤ n := by omega
      have hdiv : n / 2 < 2 ^ fuel := by
        rw [pow_succ] at hn
        omega
      have ihh := ih (n / 2) hdiv
      have hlow := ihh.1 (by omega)
      have hhigh := ihh.2
      rw [pow_succ] at hhigh
      simp only [log2Fuel, if_neg h1]
      constructor
      · intro _
        rw [pow_succ]
        omega
      · rw [pow_succ, pow_succ]
        omega

theorem flog2_le {n : Nat} (h1 : 1 ≤ n) (h2 : n < 2 ^ 400) : 2 ^ flog2 n ≤ n :=
  (log2Fuel_spec 400 n h2).1 h1

theorem flog2_lt {n : Nat} (h2 : n < 2 ^ 400) : n < 2 ^ (flog2 n + 1) :=
  (log2Fuel_spec 400 n h2).2

theorem pow53_lt_pow400 : (2 : Nat) ^ 53 < 2 ^ 400 :=
  Nat.pow_lt_pow_right (by norm_num) (by norm_num)

theorem natToF64_exact {n : Nat} (h : n ≤ 2 ^ 53) : natToF64 n = n := by
  rcases Nat.lt_or_ge n (2 ^ 53) with hlt | hge
  · rcases Nat.eq_zero_or_pos n with rfl | hpos
    · decide
    · have hlog : flog2 n ≤ 52 := by
        have hle := flog2_le hpos (lt_trans hlt pow53_lt_pow400)
        have hpow : (2 : Nat) ^ flog2 n < 2 ^ 53 := lt_of_le_of_lt hle hlt
        have := (Nat.pow_lt_pow_iff_right (by norm_num : (1:Nat) < 2)).1 hpow
        omega
      unfold natToF64
      rw [Nat.sub_eq_zero_of_le hlog]
      simp [Nat.mod_one]
  · have heq : n = 2 ^ 53 := le_antisymm h hge
    subst heq
    decide

theorem roundNEInt_ge (num den : Nat) : num / den ≤ roundNEInt num den := by
  simp only [roundNEInt]
  split_ifs <;> omega

theorem divF64_ltHalf {a b : Nat} (hb : 0 < b) (hb53 : b ≤ 2 ^ 53) (hab : a ≤ b) :
    ((divF64 a b).ltHalf = true) ↔ 2 * a < b := by
  rcases Nat.eq_zero_or_pos a with rfl | ha
  · simp [divF64, Dyadic.ltHalf, hb]
  · have hbne : ¬(a = 0 ∨ b = 0) := by omega
    have hb400 : b < 2 ^ 400 := lt_of_le_of_lt hb53 pow53_lt_pow400
    have hflogb_le : 2 ^ flog2 b ≤ b := flog2_le hb hb400
    have hflogb53 : flog2 b ≤ 53 := by
      have h1 : (2 : Nat) ^ flog2 b ≤ 2 ^ 53 := le_trans hflogb_le hb53
      exact (Nat.pow_le_pow_iff_right (by norm_num)).1 h1
    -- abbreviations
    have main : ∀ s E : Nat, 201 ≤ s → s ≤ 254 →
        b < 2 ^ s → 2 ^ E ≤ a * 2 ^ s / b → a * 2 ^ s / b < 2 ^ (E + 1) → E ≤ s →
        (roundNEInt (a * 2 ^ (s + 52 - E)) b * 2 < 2 ^ (s + 52 - E) ↔ 2 * a < b) := by
      intro s E hs201 hs254 hbs hEl hEu hEs
      constructor
      · -- contrapositive: b ≤ 2a → the rounded mantissa is at least half
        intro hlt
        by_contra hge
        push_neg at hge
        have hK1 : 1 ≤ s + 52 - E := by omega
        have hKsplit : 2 ^ (s + 52 - E) = 2 * 2 ^ (s + 52 - E - 1) := by
          rw [← pow_succ']
          congr 1
          omega
        have hNge : 2 ^ (s + 52 - E - 1) * b ≤ a * 2 ^ (s + 52 - E) := by
          calc 2 ^ (s + 52 - E - 1) * b ≤ 2 ^ (s + 52 - E - 1) * (2 * a) := by
                exact Nat.mul_le_mul_left _ hge
            _ = a * (2 * 2 ^ (s + 52 - E - 1)) := by ring
            _ = a * 2 ^ (s + 52 - E) := by rw [← hKsplit]
        have hq : 2 ^ (s + 52 - E - 1) ≤ a * 2 ^ (s + 52 - E) / b :=
          (Nat.le_div_iff_mul_le hb).2 hNge
        have hM : 2 ^ (s + 52 - E - 1) ≤ roundNEInt (a * 2 ^ (s + 52 - E)) b :=
          le_trans hq (roundNEInt_ge _ _)
        omega
      · intro hlt2a
        -- first: E + 2 ≤ s, so K = s + 52 - E is at least 54
        have hEs2 : E + 2 ≤ s := by
          have hssplit : 2 ^ s = 2 * 2 ^ (s - 1) := by
            rw [← pow_succ']
            congr 1
            omega
          have h1 : a * 2 ^ s / b < 2 ^ (s - 1) := by
            rw [Nat.div_lt_iff_lt_mul hb]
            calc a * 2 ^ s = 2 * a * 2 ^ (s - 1) := by rw [hssplit]; ring
              _ < b * 2 ^ (s - 1) := by
                  exact Nat.mul_lt_mul_of_lt_of_le hlt2a (le_refl _) (by positivity)
              _ = 2 ^ (s - 1) * b := mul_comm _ _
          have h2 : (2 : Nat) ^ E < 2 ^ (s - 1) := lt_of_le_of_lt hEl h1
          have h3 := (Nat.pow_lt_pow_iff_right (by norm_num : (1:Nat) < 2)).1 h2
          omega
        have hK54 : 54 ≤ s + 52 - E := by omega
        have hKsplit : 2 ^ (s + 52 - E) = 2 * 2 ^ (s + 52 - E - 1) := by
          rw [← pow_succ']
          congr 1
          omega
        have hP53 : b ≤ 2 ^ (s + 52 - E - 1) := by
          refine le_trans hb53 (Nat.pow_le_pow_right (by norm_num) (by omega))
        -- bound: N = a * 2^K is strictly below b * 2^(K-1), with margin 2^(K-1)
        have hNle : 2 * (a * 2 ^ (s + 52 - E)) + 2 ^ (s + 52 - E) ≤ b * 2 ^ (s + 52 - E) := by
          calc 2 * (a * 2 ^ (s + 52 - E)) + 2 ^ (s + 52 - E)
              = (2 * a + 1) * 2 ^ (s + 52 - E) := by ring
            _ ≤ b * 2 ^ (s + 52 - E) := Nat.mul_le_mul_right _ (by omega)
        have hqr := Nat.div_add_mod (a * 2 ^ (s + 52 - E)) b
        have hrb : a * 2 ^ (s + 52 - E) % b < b := Nat.mod_lt _ hb
        have hqP : a * 2 ^ (s + 52 - E) / b < 2 ^ (s + 52 - E - 1) := by
          rw [Nat.div_lt_iff_lt_mul hb]
          have hcalc : b * 2 ^ (s + 52 - E) = 2 * (b * 2 ^ (s + 52 - E - 1)) := by
            rw [hKsplit]; ring
          -- from hNle : 2*N + 2^K ≤ b * 2^K = 2 * (b * 2^(K-1))
          rw [hcalc] at hNle
          have hc2 : 2 ^ (s + 52 - E - 1) * b = b * 2 ^ (s + 52 - E - 1) := mul_comm _ _
          have hpos : 0 < 2 ^ (s + 52 - E) := by positivity
          omega
        -- now split on the rounding branches
        simp only [roundNEInt]
        split_ifs with h1 h2 h3
        · omega
        · -- rounds up: show q + 1 < 2^(K-1) still; boundary q = 2^(K-1) - 1 impossible
          by_cases hqtop : a * 2 ^ (s + 52 - E) / b + 1 < 2 ^ (s + 52 - E - 1)
          · omega
          · exfalso
            have hqeq : a * 2 ^ (s + 52 - E) / b = 2 ^ (s + 52 - E - 1) - 1 := by omega
            have hbq : b * (a * 2 ^ (s + 52 - E) / b) = b * 2 ^ (s + 52 - E - 1) - b := by
              rw [hqeq, Nat.mul_sub, mul_one]
            have hbP : b ≤ b * 2 ^ (s + 52 - E - 1) := Nat.le_mul_of_pos_right _ (by positivity)
            have hcalc : b * 2 ^ (s + 52 - E) = 2 * (b * 2 ^ (s + 52 - E - 1)) := by
              rw [hKsplit]; ring
            rw [hcalc] at hNle
            -- hqr : b * q + r = N ; hbq rewrites b*q
            rw [hbq] at hqr
            have hbP2 : 2 ^ (s + 52 - E - 1) ≤ b * 2 ^ (s + 52 - E - 1) :=
              Nat.le_mul_of_pos_left _ hb
            omega
        · omega
        · -- tie with odd quotient rounds up: boundary as above
          by_cases hqtop : a * 2 ^ (s + 52 - E) / b + 1 < 2 ^ (s + 52 - E - 1)
          · omega
          · exfalso
            have hqeq : a * 2 ^ (s + 52 - E) / b = 2 ^ (s + 52 - E - 1) - 1 := by omega
            have hbq : b * (a * 2 ^ (s + 52 - E) / b) = b * 2 ^ (s + 52 - E - 1) - b := by
              rw [hqeq, Nat.mul_sub, mul_one]
            have hbP : b ≤ b * 2 ^ (s + 52 - E - 1) := Nat.le_mul_of_pos_right _ (by positivity)
            have hcalc : b * 2 ^ (s + 52 - E) = 2 * (b * 2 ^ (s + 52 - E - 1)) := by
              rw [hKsplit]; ring
            rw [hcalc] at hNle
            rw [hbq] at hqr
            have hbP2 : 2 ^ (s + 52 - E - 1) ≤ b * 2 ^ (s + 52 - E - 1) :=
              Nat.le_mul_of_pos_left _ hb
            omega
    -- instantiate with the concrete exponents of divF64
    have hb_lt_pow : b < 2 ^ (flog2 b + 201) := by
      have h1 : b < 2 ^ (flog2 b + 1) := flog2_lt hb400
      exact lt_of_lt_of_le h1 (Nat.pow_le_pow_right (by norm_num) (by omega))
    have hx1 : 1 ≤ a * 2 ^ (flog2 b + 201) / b := by
      rw [Nat.le_div_iff_mul_le hb]
      calc 1 * b = b := one_mul b
        _ ≤ 2 ^ (flog2 b + 201) := le_of_lt hb_lt_pow
        _ ≤ a * 2 ^ (flog2 b + 201) := Nat.le_mul_of_pos_left _ ha
    have hx400 : a * 2 ^ (flog2 b + 201) / b < 2 ^ 400 := by
      have h1 : a * 2 ^ (flog2 b + 201) ≤ 2 ^ 53 * 2 ^ 254 := by
        exact Nat.mul_le_mul (le_trans hab hb53) (Nat.pow_le_pow_right (by norm_num) (by omega))
      have h2 : a * 2 ^ (flog2 b + 201) / b ≤ a * 2 ^ (flog2 b + 201) := Nat.div_le_self _ _
      have h3 : (2 : Nat) ^ 53 * 2 ^ 254 < 2 ^ 400 := by
        rw [← pow_add]
        exact Nat.pow_lt_pow_right (by norm_num) (by norm_num)
      omega
    have hEl : 2 ^ flog2 (a * 2 ^ (flog2 b + 201) / b) ≤ a * 2 ^ (flog2 b + 201) / b :=
      flog2_le hx1 hx400
    have hEu : a * 2 ^ (flog2 b + 201) / b < 2 ^ (flog2 (a * 2 ^ (flog2 b + 201) / b) + 1) :=
      flog2_lt hx400
    have hEs : flog2 (a * 2 ^ (flog2 b + 201) / b) ≤ flog2 b + 201 := by
      have h1 : a * 2 ^ (flog2 b + 201) / b ≤ 2 ^ (flog2 b + 201) := by
        calc a * 2 ^ (flog2 b + 201) / b ≤ b * 2 ^ (flog2 b + 201) / b :=
              Nat.div_le_div_right (Nat.mul_le_mul_right _ hab)
          _ = 2 ^ (flog2 b + 201) := Nat.mul_div_cancel_left _ hb
      have h2 : (2 : Nat) ^ flog2 (a * 2 ^ (flog2 b + 201) / b) ≤ 2 ^ (flog2 b + 201) :=
        le_trans hEl h1
      exact (Nat.pow_le_pow_iff_right (by norm_num)).1 h2
    have hshape : divF64 a b
        = ⟨roundNEInt (a * 2 ^ (flog2 b + 201 + 52 - flog2 (a * 2 ^ (flog2 b + 201) / b))) b,
           flog2 b + 201 + 52 - flog2 (a * 2 ^ (flog2 b + 201) / b)⟩ := by
      rw [divF64, if_neg hbne]
      simp only
      rw [if_neg (by omega)]
    rw [hshape]
    simp only [Dyadic.ltHalf, decide_eq_true_eq]
    exact main (flog2 b + 201) (flog2 (a * 2 ^ (flog2 b + 201) / b))
      (by omega) (by omega) hb_lt_pow hEl hEu hEs

/-! Claim theorems. -/

/-- C1: refuted by the code at a concrete input.  For a source symlink
colliding with a destination regular file under distinct roots, the differ's
plan contains a Delete that names the source-tree path `src/link`, which does
not lie under the destination root (and the executor removes exactly the path
stored in the operation). -/
theorem claimC1_delete_names_source_path :
    compareFileLists
      [{ path := ["src", "link"], size := 0, modified := 0, isDirectory := false,
         isSymlink := true, symlinkTarget := some ["t1"], checksum := none }]
      [{ path := ["dst", "link"], size := 5, modified := 0, isDirectory := false,
         isSymlink := false, symlinkTarget := none, checksum := none }]
      ["src"] ["dst"] { checksum := false, purge := false, mirror := false }
      = [.delete ["src", "link"], .createSymlink ["src", "link"] ["t1"]]
    ∧ stripRoot ["dst"] ["src", "link"] = none := by
  constructor
  · decide
  · decide

/-- C9: refuted by the code at a concrete input.  On the one-character text
"é" (a two-byte UTF-8 character) and the pattern "*x", the recursive `*`
branch slices the text at byte index 1, inside the character's encoding,
which panics instead of returning a boolean. -/
theorem claimC9_glob_panics_on_multibyte :
    matchesPattern ['é'] ['*', 'x'] = .error () := by decide

/-- C7: counterexample.  With the `None` algorithm, a 16 MiB + 1 input is
returned unchanged — an output above 16 MiB that is not rejected —
whatever the third-party zstd/lz4 decompressors do. -/
theorem claimC7_counterexample :
    decompressData (fun _ _ => .error "") (fun _ => .error "")
        (List.replicate (16 * 1024 * 1024 + 1) 0) .nocomp
      = .ok (List.replicate (16 * 1024 * 1024 + 1) 0)
    ∧ 16 * 1024 * 1024 < (List.replicate (16 * 1024 * 1024 + 1) 0).length := by
  refine ⟨rfl, ?_⟩
  rw [List.length_replicate]
  omega

/-- C7 (amended): only the Zstd branch passes the 16 MiB cap to its
decompressor — so if that decompressor honours its capacity argument, every
successful Zstd decompression is at most 16 MiB — while the `None` branch
returns its input unchanged with no bound (and the Lz4 branch receives no
bound at all). -/
theorem claimC7_zstd_only_bound (z : List Nat → Nat → Except String (List Nat))
    (l : List Nat → Except String (List Nat)) (data out : List Nat) :
    ((∀ d cap r, z d cap = .ok r → r.length ≤ cap) →
      decompressData z l data .zstd = .ok out → out.length ≤ 16 * 1024 * 1024)
    ∧ decompressData z l data .nocomp = .ok data
    ∧ decompressData z l data .lz4 = l data := by
  refine ⟨fun hz h => hz _ _ _ h, rfl, rfl⟩

/-- C7 witness: the amended theorem applied at a concrete decompressor that
honours its capacity argument. -/
theorem claimC7_zstd_only_bound_witness :
    ([] : List Nat).length ≤ 16 * 1024 * 1024 :=
  (claimC7_zstd_only_bound (fun _ _ => .ok []) (fun _ => .error "") [0] []).1
    (by intro d cap r h; cases h; simp) rfl

/-- C6: the retry wrapper invokes the thunk at most `max_retries + 1` times;
sleeps happen exactly between consecutive invocations (one fewer than the
calls); if the first `i` attempts fail and attempt `i ≤ max_retries`
succeeds, its value is returned after exactly `i + 1` invocations; and when
every attempt fails, the last attempt's error is returned annotated with the
retry count of the exhaustion message. -/
theorem claimC6_retry_contract (E A : Type) (f : Nat → Except E A) (config : RetryConfig) :
    (withRetry f config).calls ≤ config.maxRetries + 1
    ∧ (withRetry f config).sleeps + 1 = (withRetry f config).calls
    ∧ (∀ i v, i ≤ config.maxRetries → (∀ j, j < i → ∃ e, f j = .error e) →
        f i = .ok v →
        (withRetry f config).result = .ok v ∧ (withRetry f config).calls = i + 1)
    ∧ ((∀ j, j ≤ config.maxRetries → ∃ e, f j = .error e) →
        ∃ e, f config.maxRetries = .error e
          ∧ (withRetry f config).result = .error (e, config.maxRetries)
          ∧ (withRetry f config).calls = config.maxRetries + 1) := by
  refine ⟨retryGo_calls_le f config.maxRetries config.maxRetries,
    retryGo_sleeps_calls f config.maxRetries config.maxRetries, ?_, ?_⟩
  · intro i v hi hfail hok
    have h := retryGo_success f config.maxRetries config.maxRetries (le_refl _) i v
      (by omega) hi (fun j _ hj => hfail j hj) hok
    refine ⟨h.1, ?_⟩
    rw [withRetry, h.2]
    omega
  · intro hfail
    exact retryGo_exhaust f config.maxRetries config.maxRetries (le_refl _)
      (fun j _ hj => hfail j hj)

/-- C6 witness: with retries `⟨3, 7⟩` and a thunk failing twice then
succeeding, the wrapper returns the success after exactly three calls and two
sleeps. -/
theorem claimC6_retry_contract_witness :
    (withRetry (fun i => if i < 2 then (.error 0) else .ok 42) ⟨3, 7⟩).result = .ok 42
    ∧ (withRetry (fun i => if i < 2 then (.error 0) else .ok 42) ⟨3, 7⟩).calls = 3 := by
  have h := (claimC6_retry_contract Nat Nat
      (fun i => if i < 2 then (.error 0) else .ok 42) ⟨3, 7⟩).2.2.1 2 42
    (by decide) (fun j hj => ⟨0, by simp [hj]⟩) (by norm_num)
  exact ⟨h.1, h.2⟩

/-- C8: the claim fails in the live directory flow.  With copy flags
including `U`, the auditing bit indeed changes no metadata, and the per-copy
metadata path `copy_file_with_metadata_internal` defines exactly one audit
warning per copy; but `sync_directories` copies every `Create`/`Update`
operation with bare `fs::copy` (small-file batch and
`execute_operation_parallel`) and never reaches that path, so the
deduplicated warning report of a directory run is empty — zero audit
warnings rather than the single warning per run the claim requires. -/
theorem claimC8_audit_warning_lost (s : List Char) (ops : List FileOperation)
    (src dst : Metadata) (hU : 'U' ∈ s.map Char.toUpper) :
    applyMetadataFlags (CopyFlags.fromString s) src dst
        = applyMetadataFlags { CopyFlags.fromString s with auditing := false } src dst
    ∧ copyFileWarnings (CopyFlags.fromString s) = [auditWarning]
    ∧ summaryWarnings (dirRunWarnings (CopyFlags.fromString s) ops) = [] := by
  have haud : (CopyFlags.fromString s).auditing = true := by
    rcases List.mem_map.1 hU with ⟨c, hc, hcU⟩
    simp [CopyFlags.fromString]
    exact ⟨c, hc, hcU⟩
  refine ⟨rfl, ?_, ?_⟩
  · simp [copyFileWarnings, haud]
  · rw [dirRunWarnings_eq_nil]
    rfl

/-- C8 witness: the theorem at copy flags "U" and a directory plan of one
create, one update and one delete. -/
theorem claimC8_audit_warning_lost_witness :
    applyMetadataFlags (CopyFlags.fromString ['U']) ⟨1, 2, 3⟩ ⟨4, 5, 6⟩
        = applyMetadataFlags { CopyFlags.fromString ['U'] with auditing := false } ⟨1, 2, 3⟩ ⟨4, 5, 6⟩
    ∧ copyFileWarnings (CopyFlags.fromString ['U']) = [auditWarning]
    ∧ summaryWarnings (dirRunWarnings (CopyFlags.fromString ['U'])
        [.create ["a"], .update ["b"] false, .delete ["c"]]) = [] :=
  claimC8_audit_warning_lost ['U'] [.create ["a"], .update ["b"] false, .delete ["c"]]
    ⟨1, 2, 3⟩ ⟨4, 5, 6⟩ (by decide)

/-- C4: for two regular files at the same relative path, the differ emits an
Update exactly when `needs_update` holds, i.e. when hash mode is on and both
entries carry hashes the hashes differ, and otherwise the source mtime is
strictly newer or the sizes differ. -/
theorem claimC4_update_iff (S T : FileInfo) (opts : SyncOptions)
    (hS1 : S.isSymlink = false) (hT1 : T.isSymlink = false)
    (hS2 : S.isDirectory = false) (hT2 : T.isDirectory = false) :
    (∃ b, FileOperation.update S.path b ∈ diffEntry S (some T) opts) ↔
      (if opts.checksum ∧ S.checksum.isSome ∧ T.checksum.isSome
       then S.checksum ≠ T.checksum
       else T.modified < S.modified ∨ S.size ≠ T.size) := by
  rw [← needsUpdate_iff]
  have hde : diffEntry S (some T) opts
      = if needsUpdate S T opts then [.update S.path (shouldUseDelta S T)] else [] := by
    simp [diffEntry, hS1, hT1, hS2, hT2]
  rcases hnu : needsUpdate S T opts <;> simp [hde, hnu]

/-- C4 witness: the theorem applied at a concrete newer-mtime pair. -/
theorem claimC4_update_iff_witness :
    ∃ b, FileOperation.update ["s", "f"] b ∈
      diffEntry ⟨["s", "f"], 5, 10, false, false, none, none⟩
        (some ⟨["d", "f"], 5, 3, false, false, none, none⟩) ⟨false, false, false⟩ :=
  (claimC4_update_iff ⟨["s", "f"], 5, 10, false, false, none, none⟩
      ⟨["d", "f"], 5, 3, false, false, none, none⟩ ⟨false, false, false⟩
      rfl rfl rfl rfl).2 (by norm_num)

/-- C3: refuted by the code at a concrete input.  On a source regular file
colliding with a destination directory, the differ's plan places the Delete
before the Create that replaces it, so Deletes do not all follow non-Delete
operations. -/
theorem claimC3_delete_not_last :
    ¬ List.Pairwise (fun a b => a.isDelete = true → b.isDelete = true)
      (compareFileLists
        [{ path := ["s", "a"], size := 1, modified := 0, isDirectory := false,
           isSymlink := false, symlinkTarget := none, checksum := none }]
        [{ path := ["d", "a"], size := 0, modified := 0, isDirectory := true,
           isSymlink := false, symlinkTarget := none, checksum := none }]
        ["s"] ["d"] { checksum := false, purge := false, mirror := false }) := by
  decide

/-- C10: refuted by the code at a concrete input.  When the destination root
lies inside the source tree, a kind-mismatch Delete (which carries the source
path) can name the destination root even though the root entry was filtered
out of the scanned destination list. -/
theorem claimC10_root_delete_possible :
    FileOperation.delete ["a", "b"] ∈
      compareFileLists
        [{ path := ["a", "b"], size := 0, modified := 0, isDirectory := true,
           isSymlink := false, symlinkTarget := none, checksum := none }]
        (retainNonRoot
          [{ path := ["a", "b", "b"], size := 1, modified := 0, isDirectory := false,
             isSymlink := false, symlinkTarget := none, checksum := none }]
          ["a", "b"])
        ["a"] ["a", "b"] { checksum := false, purge := false, mirror := false } := by
  decide

/-- C10 (amended): removing the destination root from the scanned destination
list guarantees that no Delete derived from that list — neither an
unmatched-target deletion nor a purge deletion — names the destination root;
the only Deletes that can name it are the kind-mismatch ones, which carry
source paths. -/
theorem claimC10_nonroot_amended (source sourceFiles destFiles : List FileInfo)
    (sourceRoot destination : List String) (options : SyncOptions) (p : List String) :
    (FileOperation.delete p ∈
        findPurgeOperations sourceFiles (retainNonRoot destFiles destination)
          sourceRoot destination →
      p ≠ destination)
    ∧ (FileOperation.delete p ∈
        compareFileLists source (retainNonRoot destFiles destination)
          sourceRoot destination options →
      (∃ f ∈ source, p = f.path) ∨ (∃ f ∈ destFiles, p = f.path ∧ p ≠ destination)) := by
  constructor
  · intro hmem
    rcases mem_findPurgeOperations _ _ _ _ _ hmem with ⟨f, hf, heq⟩
    have hp : p = f.path := by
      injection heq
    rcases List.mem_filter.1 hf with ⟨-, hne⟩
    subst hp
    simpa using hne
  · intro hmem
    rcases mem_compareFileLists _ _ _ _ _ _ hmem with ⟨f, hf, hpath⟩ | ⟨f, hf, heq⟩
    · exact Or.inl ⟨f, hf, hpath⟩
    · have hp : p = f.path := by
        injection heq
      rcases List.mem_filter.1 hf with ⟨hfd, hne⟩
      subst hp
      exact Or.inr ⟨f, hfd, rfl, by simpa using hne⟩

/-- C10 witness: the amended theorem applied to a purge deletion of `d/x`
under destination root `d`. -/
theorem claimC10_nonroot_amended_witness :
    (["d", "x"] : List String) ≠ ["d"] :=
  (claimC10_nonroot_amended [] []
      [{ path := ["d", "x"], size := 1, modified := 0, isDirectory := false,
         isSymlink := false, symlinkTarget := none, checksum := none }]
      ["s"] ["d"] { checksum := false, purge := true, mirror := false } ["d", "x"]).1
    (by simp [findPurgeOperations, purgeItems, retainNonRoot, stripRoot,
      List.mergeSort_nil])

/-- C3 (amended): the purge pass appends Deletes ordered files first and then
directories by non-increasing path component count, and the executor
partitions the plan so that the delete phase contains exactly the Delete
operations and runs after the directory-creation and file phases; the raw
differ plan itself, however, interleaves kind-mismatch Deletes with their
replacement operations (see the counterexample). -/
theorem claimC3_ordering_amended (sourceFiles destFiles : List FileInfo)
    (sourceRoot destRoot : List String) (ops : List FileOperation) :
    (∃ fs ds, findPurgeOperations sourceFiles destFiles sourceRoot destRoot = fs ++ ds
      ∧ (∀ op ∈ fs, ∃ f ∈ destFiles, f.isDirectory = false ∧ op = .delete f.path)
      ∧ (∀ op ∈ ds, ∃ f ∈ destFiles, f.isDirectory = true ∧ op = .delete f.path)
      ∧ List.Pairwise (fun a b : FileOperation => b.opPath.length ≤ a.opPath.length) ds)
    ∧ (∀ op ∈ (executorPhases ops).1, op.isDelete = false)
    ∧ (∀ op ∈ (executorPhases ops).2.1, op.isDelete = false)
    ∧ (∀ op ∈ (executorPhases ops).2.2, op.isDelete = true) := by
  refine ⟨⟨((purgeItems sourceFiles destFiles sourceRoot destRoot).filter
        (fun m => !m.isDir)).map (fun m => m.op),
      (((purgeItems sourceFiles destFiles sourceRoot destRoot).filter
        (fun m => m.isDir)).mergeSort (fun a b => decide (b.depth ≤ a.depth))).map
        (fun m => m.op),
      ?_, ?_, ?_, ?_⟩, ?_, ?_, ?_⟩
  · rfl
  · intro op hop
    rcases List.mem_map.1 hop with ⟨item, hitem, rfl⟩
    rcases List.mem_filter.1 hitem with ⟨hmem, hnd⟩
    rcases mem_purgeItems _ _ _ _ _ hmem with ⟨f, hf, rfl⟩
    refine ⟨f, hf, ?_, rfl⟩
    simpa using hnd
  · intro op hop
    rcases List.mem_map.1 hop with ⟨item, hitem, rfl⟩
    have hitem' := (List.mergeSort_perm _ _).mem_iff.1 hitem
    rcases List.mem_filter.1 hitem' with ⟨hmem, hd⟩
    rcases mem_purgeItems _ _ _ _ _ hmem with ⟨f, hf, rfl⟩
    exact ⟨f, hf, hd, rfl⟩
  · rw [List.pairwise_map]
    have hsorted := @List.sorted_mergeSort PurgeItem
      (fun a b : PurgeItem => decide (b.depth ≤ a.depth))
      (fun a b c hab hbc => by
        simp only [decide_eq_true_eq] at *
        omega)
      (fun a b => by
        rcases Nat.le_total b.depth a.depth with h | h <;> simp [h])
      ((purgeItems sourceFiles destFiles sourceRoot destRoot).filter (fun m => m.isDir))
    refine List.Pairwise.imp_of_mem ?_ hsorted
    intro a b ha hb hle
    have hlen : ∀ c : PurgeItem,
        c ∈ ((purgeItems sourceFiles destFiles sourceRoot destRoot).filter
          (fun m => m.isDir)).mergeSort (fun a b => decide (b.depth ≤ a.depth)) →
        c.op.opPath.length = c.depth := by
      intro c hc
      have hc' := (List.mergeSort_perm _ _).mem_iff.1 hc
      rcases List.mem_filter.1 hc' with ⟨hmem, hd⟩
      rcases mem_purgeItems _ _ _ _ _ hmem with ⟨f, hf, rfl⟩
      simp only at hd
      simp [FileOperation.opPath, hd]
    rw [hlen a ha, hlen b hb]
    simpa using hle
  · intro op hop
    have h1 : (executorPhases ops).1 = ops.filter (fun op => op.isCreateDir) := by
      simp [executorPhases, List.partition_eq_filter_filter]
    rw [h1] at hop
    rcases List.mem_filter.1 hop with ⟨-, hcd⟩
    cases op <;> simp_all [FileOperation.isCreateDir, FileOperation.isDelete]
  · intro op hop
    have h2 : (executorPhases ops).2.1
        = (ops.filter (fun op => !op.isCreateDir)).filter (fun op => !op.isDelete) := by
      simp [executorPhases, List.partition_eq_filter_filter]
    rw [h2] at hop
    rcases List.mem_filter.1 hop with ⟨-, hnd⟩
    simpa using hnd
  · intro op hop
    have h3 : (executorPhases ops).2.2
        = (ops.filter (fun op => !op.isCreateDir)).filter (fun op => !(!op.isDelete)) := by
      simp [executorPhases, List.partition_eq_filter_filter]
    rw [h3] at hop
    rcases List.mem_filter.1 hop with ⟨-, hd⟩
    simpa using hd

/-- C3 witness: the amended theorem at the spec's deepest-first scenario
(destination `x/`, `x/y/`, `x/y/z` with an empty source) and a small mixed
plan. -/
theorem claimC3_ordering_amended_witness :
    (∃ fs ds, findPurgeOperations []
        [{ path := ["d", "x"], size := 0, modified := 0, isDirectory := true,
           isSymlink := false, symlinkTarget := none, checksum := none },
         { path := ["d", "x", "y"], size := 0, modified := 0, isDirectory := true,
           isSymlink := false, symlinkTarget := none, checksum := none },
         { path := ["d", "x", "y", "z"], size := 1, modified := 0, isDirectory := false,
           isSymlink := false, symlinkTarget := none, checksum := none }]
        ["s"] ["d"] = fs ++ ds
      ∧ (∀ op ∈ fs, ∃ f ∈
          ([{ path := ["d", "x"], size := 0, modified := 0, isDirectory := true,
              isSymlink := false, symlinkTarget := none, checksum := none },
            { path := ["d", "x", "y"], size := 0, modified := 0, isDirectory := true,
              isSymlink := false, symlinkTarget := none, checksum := none },
            { path := ["d", "x", "y", "z"], size := 1, modified := 0, isDirectory := false,
              isSymlink := false, symlinkTarget := none, checksum := none }] : List FileInfo),
          f.isDirectory = false ∧ op = .delete f.path)
      ∧ (∀ op ∈ ds, ∃ f ∈
          ([{ path := ["d", "x"], size := 0, modified := 0, isDirectory := true,
              isSymlink := false, symlinkTarget := none, checksum := none },
            { path := ["d", "x", "y"], size := 0, modified := 0, isDirectory := true,
              isSymlink := false, symlinkTarget := none, checksum := none },
            { path := ["d", "x", "y", "z"], size := 1, modified := 0, isDirectory := false,
              isSymlink := false, symlinkTarget := none, checksum := none }] : List FileInfo),
          f.isDirectory = true ∧ op = .delete f.path)
      ∧ List.Pairwise (fun a b : FileOperation => b.opPath.length ≤ a.opPath.length) ds)
    ∧ (∀ op ∈ (executorPhases [FileOperation.delete ["d", "q"],
        FileOperation.create ["s", "c"]]).1, op.isDelete = false)
    ∧ (∀ op ∈ (executorPhases [FileOperation.delete ["d", "q"],
        FileOperation.create ["s", "c"]]).2.1, op.isDelete = false)
    ∧ (∀ op ∈ (executorPhases [FileOperation.delete ["d", "q"],
        FileOperation.create ["s", "c"]]).2.2, op.isDelete = true) :=
  claimC3_ordering_amended []
    [{ path := ["d", "x"], size := 0, modified := 0, isDirectory := true,
       isSymlink := false, symlinkTarget := none, checksum := none },
     { path := ["d", "x", "y"], size := 0, modified := 0, isDirectory := true,
       isSymlink := false, symlinkTarget := none, checksum := none },
     { path := ["d", "x", "y", "z"], size := 1, modified := 0, isDirectory := false,
       isSymlink := false, symlinkTarget := none, checksum := none }]
    ["s"] ["d"]
    [FileOperation.delete ["d", "q"], FileOperation.create ["s", "c"]]

set_option maxRecDepth 100000 in
/-- C5: counterexample.  At sizes `2^53 + 1` and `2^52 + 1` the exact ratio
test holds (both sizes at least 1024 and `2 * |S - T| < max`), yet the `f64`
computation rounds `2^53 + 1` down to `2^53`, the quotient becomes exactly
`0.5`, and `should_use_delta` returns false. -/
theorem claimC5_f64_rounding_counterexample :
    shouldUseDelta
        { path := [], size := 2 ^ 53 + 1, modified := 0, isDirectory := false,
          isSymlink := false, symlinkTarget := none, checksum := none }
        { path := [], size := 2 ^ 52 + 1, modified := 0, isDirectory := false,
          isSymlink := false, symlinkTarget := none, checksum := none } = false
    ∧ 1024 ≤ 2 ^ 53 + 1 ∧ 1024 ≤ 2 ^ 52 + 1
    ∧ 2 * (max (2 ^ 53 + 1) (2 ^ 52 + 1) - min (2 ^ 53 + 1) (2 ^ 52 + 1))
        < max (2 ^ 53 + 1) (2 ^ 52 + 1) := by
  refine ⟨by decide, by norm_num, by norm_num, by decide⟩

/-- C5 (amended): for sizes up to `2 ^ 53` — where the `u64` to `f64` casts
are exact and the rounded quotient falls on the same side of one half as the
exact ratio — `use_delta` is true exactly when both sizes are at least 1024
bytes and `2 * |S.size - T.size| < max(S.size, T.size)`; beyond `2 ^ 53` the
double-precision rounding can disagree with the exact ratio test. -/
theorem claimC5_use_delta_amended (S T : FileInfo)
    (hS : S.size ≤ 2 ^ 53) (hT : T.size ≤ 2 ^ 53) :
    shouldUseDelta S T = true ↔
      (1024 ≤ S.size ∧ 1024 ≤ T.size
        ∧ 2 * (max S.size T.size - min S.size T.size) < max S.size T.size) := by
  by_cases h1 : S.size < 1024
  · simp [shouldUseDelta, h1]
  · by_cases h2 : T.size < 1024
    · simp [shouldUseDelta, h1, h2]
    · push_neg at h1 h2
      have hmaxpos : 0 < max S.size T.size := by omega
      have hdiff_le : max S.size T.size - min S.size T.size ≤ max S.size T.size :=
        Nat.sub_le _ _
      have hmax53 : max S.size T.size ≤ 2 ^ 53 := max_le hS hT
      simp only [shouldUseDelta]
      rw [if_neg (by simp; omega)]
      rw [natToF64_exact (le_trans hdiff_le hmax53), natToF64_exact hmax53]
      rw [divF64_ltHalf hmaxpos hmax53 hdiff_le]
      simp [h1, h2]

set_option maxRecDepth 100000 in
/-- C5 witness: the amended theorem at the similar-size pair from the
repository's own unit test (10000 and 10100 bytes). -/
theorem claimC5_use_delta_amended_witness :
    shouldUseDelta
        { path := [], size := 10000, modified := 0, isDirectory := false,
          isSymlink := false, symlinkTarget := none, checksum := none }
        { path := [], size := 10100, modified := 0, isDirectory := false,
          isSymlink := false, symlinkTarget := none, checksum := none } = true :=
  (claimC5_use_delta_amended _ _ (by norm_num) (by norm_num)).2 (by decide)

/-! C2 helper lemmas and claim theorems (delta reconstruction). -/

theorem take_drop_glue (S : List Nat) (j n : Nat) :
    (S.drop j).take n ++ S.drop (j + n) = S.drop j := by
  conv_rhs => rw [← List.take_append_drop n (S.drop j)]
  congr 1
  rw [List.drop_drop]

theorem drop_take_drop (S : List Nat) (j k : Nat) (hjk : j ≤ k) :
    (S.drop j).take (k - j) ++ S.drop k = S.drop j := by
  conv_rhs => rw [← List.take_append_drop (k - j) (S.drop j)]
  congr 1
  rw [List.drop_drop]
  congr 1
  omega

theorem applyDelta_emitLit_append (dec : List Nat → Except String (List Nat))
    (comp : List Nat → List Nat) (hrt : ∀ d, dec (comp d) = .ok d)
    (codec : Option (List Nat → List Nat)) (hcodec : codec = none ∨ codec = some comp)
    (D S : List Nat) (litStart iEnd : Nat) (rest : List Match) (out : List Nat)
    (hrest : applyDelta dec D rest = .ok out) :
    applyDelta dec D (emitLit codec litStart iEnd S ++ rest)
      = .ok ((S.drop litStart).take (iEnd - litStart) ++ out) := by
  unfold emitLit
  by_cases hlt : litStart < iEnd
  · rw [if_pos hlt]
    rcases hcodec with rfl | rfl
    · simp [mkLiteral, applyDelta, hrest]
    · simp only [mkLiteral]
      by_cases hcp : 64 ≤ ((S.drop litStart).take (iEnd - litStart)).length
          ∧ (comp ((S.drop litStart).take (iEnd - litStart))).length
            < ((S.drop litStart).take (iEnd - litStart)).length
      · rw [if_pos hcp]
        simp [applyDelta, hrt, hrest]
      · rw [if_neg hcp]
        simp [applyDelta, hrest]
  · rw [if_neg hlt]
    have h0 : iEnd - litStart = 0 := by omega
    simp [h0, hrest]

theorem genChecksFuel_sound (B : Nat) (D : List Nat) :
    ∀ (fuel offset : Nat), (D.drop offset).length ≤ fuel →
      ∀ c ∈ genChecksFuel B fuel (D.drop offset) offset,
        c.strong = (D.drop c.offset).take (max B 1)
          ∧ c.offset + c.strong.length ≤ D.length := by
  intro fuel
  induction fuel with
  | zero =>
    intro offset hlen c hc
    simp [genChecksFuel] at hc
  | succ fuel ih =>
    intro offset hlen c hc
    rcases hD : D.drop offset with _ | ⟨d, ds⟩ <;> rw [hD] at hc
    · simp [genChecksFuel] at hc
    · simp only [genChecksFuel] at hc
      rcases List.mem_cons.1 hc with rfl | hmem
      · constructor
        · rw [← hD]
        · rw [← hD]
          have h5 : (D.drop offset).length = D.length - offset := List.length_drop _ _
          have hoff : offset ≤ D.length := by
            by_contra hcon
            push_neg at hcon
            rw [List.drop_eq_nil_of_le (le_of_lt hcon)] at hD
            exact List.noConfusion hD
          simp only [List.length_take, h5]
          omega
      · have hdd : (d :: ds).drop (max B 1) = D.drop (offset + max B 1) := by
          rw [← hD, List.drop_drop]
        rw [hdd] at hmem
        have hlen' : (D.drop (offset + max B 1)).length ≤ fuel := by
          have h5 : (D.drop (offset + max B 1)).length = D.length - (offset + max B 1) :=
            List.length_drop _ _
          have h6 : (D.drop offset).length = D.length - offset := List.length_drop _ _
          have h3 : 1 ≤ max B 1 := le_max_right B 1
          omega
        exact ih (offset + max B 1) hlen' c hmem

theorem generateChecksums_sound (D : List Nat) (B : Nat) :
    ∀ c ∈ generateChecksums D B,
      c.strong = (D.drop c.offset).take (max B 1)
        ∧ c.offset + c.strong.length ≤ D.length := by
  have h := genChecksFuel_sound B D D.length 0 (by simp)
  simpa using h

theorem findCandidate_sound (checks : List BlockChecksum) (w : List Nat) (c : BlockChecksum) :
    findCandidate checks w = some c → c ∈ checks ∧ c.strong = w := by
  intro h
  have h1 := List.find?_some h
  have h2 := List.mem_of_find?_eq_some h
  simp only [decide_eq_true_eq] at h1
  exact ⟨h2, h1.2⟩

theorem findFromFuel_reconstruct (comp : List Nat → List Nat)
    (dec : List Nat → Except String (List Nat))
    (hrt : ∀ d, dec (comp d) = .ok d)
    (codec : Option (List Nat → List Nat)) (hcodec : codec = none ∨ codec = some comp)
    (D S : List Nat) (B : Nat) :
    ∀ (fuel i litStart : Nat), litStart ≤ i → i ≤ S.length → S.length - i < fuel →
      applyDelta dec D (findFromFuel (generateChecksums D B) codec B S fuel i litStart)
        = .ok (S.drop litStart) := by
  intro fuel
  induction fuel with
  | zero =>
    intro i litStart h1 h2 h3
    omega
  | succ fuel ih =>
    intro i litStart h1 h2 h3
    simp only [findFromFuel]
    by_cases hwin : i + max B 1 ≤ S.length
    · rw [if_pos hwin]
      rcases hc : findCandidate (generateChecksums D B) ((S.drop i).take (max B 1)) with _ | c
      · exact ih (i + 1) litStart (by omega) (by have := le_max_right B 1; omega) (by omega)
      · rcases findCandidate_sound _ _ _ hc with ⟨hcmem, hcw⟩
        rcases generateChecksums_sound D B c hcmem with ⟨hcstrong, hcbound⟩
        have hwlen : ((S.drop i).take (max B 1)).length = max B 1 := by
          simp only [List.length_take, List.length_drop]
          omega
        have hstronglen : c.strong.length = max B 1 := by rw [hcw, hwlen]
        rw [hstronglen] at hcbound
        have hslice : (D.drop c.offset).take (max B 1) = (S.drop i).take (max B 1) := by
          rw [← hcstrong, hcw]
        have hrec := ih (i + max B 1) (i + max B 1) (le_refl _) (by omega) (by omega)
        have hblock : applyDelta dec D
            (Match.block i c.offset (max B 1)
              :: findFromFuel (generateChecksums D B) codec B S fuel (i + max B 1) (i + max B 1))
            = .ok ((S.drop i).take (max B 1) ++ S.drop (i + max B 1)) := by
          simp [applyDelta, hcbound, hrec, hslice]
        have hlit := applyDelta_emitLit_append dec comp hrt codec hcodec D S litStart i _ _ hblock
        rw [hlit]
        rw [take_drop_glue S i (max B 1)]
        rw [drop_take_drop S litStart i h1]
    · rw [if_neg hwin]
      have hlit := applyDelta_emitLit_append dec comp hrt codec hcodec D S litStart S.length
        [] [] rfl
      rw [List.append_nil] at hlit
      rw [hlit, List.append_nil, List.take_of_length_le (by simp [List.length_drop])]

/-- C2: for every destination content `D`, source content `S` and block size
`B`, applying the instruction stream produced by the delta matcher to `D`
(copying referenced blocks from `D`, emitting literals and decompressing
those flagged compressed) reconstructs exactly `S`, whether literals are
compressed (`codecOn = true`) or not, for any compressor/decompressor pair
satisfying the round-trip law. -/
theorem claimC2_delta_reconstruction (comp : List Nat → List Nat)
    (dec : List Nat → Except String (List Nat))
    (hrt : ∀ d, dec (comp d) = .ok d)
    (D S : List Nat) (B : Nat) (codecOn : Bool) :
    applyDelta dec D
      (findMatches (if codecOn then some comp else none) S (generateChecksums D B) B)
      = .ok S := by
  have h := findFromFuel_reconstruct comp dec hrt
    (if codecOn then some comp else none)
    (by cases codecOn <;> simp) D S B (S.length + 1) 0 0 (le_refl 0) (Nat.zero_le _) (by omega)
  simpa [findMatches] using h

/-- C2 witness: the theorem applied with the identity codec (whose round-trip
law holds by `rfl`), destination `[1,2,3,4]`, source `[3,4,1,2,9]` and block
size 2, with compression enabled. -/
theorem claimC2_delta_reconstruction_witness :
    applyDelta (fun x => (.ok x : Except String (List Nat))) [1, 2, 3, 4]
      (findMatches (some (fun x : List Nat => x)) [3, 4, 1, 2, 9]
        (generateChecksums [1, 2, 3, 4] 2) 2)
      = .ok [3, 4, 1, 2, 9] := by
  have h := claimC2_delta_reconstruction (fun x => x)
    (fun x => (.ok x : Except String (List Nat))) (fun d => rfl)
    [1, 2, 3, 4] [3, 4, 1, 2, 9] 2 true
  simpa using h

end RoboSync
